import Mathlib

/-!
# Shallow embedding of the `vbump` version-bumping tool

This file embeds the core of the `vbump` TypeScript sources
(`src/index.ts`, `src/cli.ts`) as executable Lean definitions and proves
properties of them.

Conventions of the embedding:
* JavaScript strings are `String` / `List Char`.
* `Number(s)` conversion is modelled by `jsToNumber`, restricted to
  optional-sign decimal integer numerals with surrounding ASCII whitespace
  (hexadecimal / exponent forms of JS numerals are not modelled; no input
  considered here uses them).  `none` plays the role of `NaN`.
* JSON documents are modelled by the inductive `Json`; JS truthiness of a
  JSON value is `Json.truthy`.
* The git side effects of `bumpVersion` are modelled by an oracle
  `GitOracle : List String → Except String String` giving each subcommand's
  outcome, and the run is reified as the list of `Effect`s actually issued.
-/

namespace VBump

/-- The `BumpType` union from `src/index.ts`: `'major' | 'minor' | 'patch'`. -/
inductive BumpType where
  | major
  | minor
  | patch
deriving DecidableEq, Repr

/-- ASCII whitespace test used to model JS `String.prototype.trim`
(space, tab, LF, CR). -/
def isWs (c : Char) : Bool :=
  c.toNat = 32 || c.toNat = 9 || c.toNat = 10 || c.toNat = 13

/-- ASCII decimal digit test (`'0'`..`'9'`, code points 48..57). -/
def isDigitC (c : Char) : Bool :=
  48 ≤ c.toNat && c.toNat ≤ 57

/-- The decimal digit character for `d` (meaningful for `d < 10`). -/
def digitChar (d : Nat) : Char := Char.ofNat (48 + d)

/-- Fuelled decimal-numeral worker (structural recursion on the fuel, so
that concrete numerals reduce definitionally); the fuel is never exhausted
when it exceeds `n`. -/
def natDigitsF : Nat → Nat → List Char
  | 0, _ => []
  | fuel + 1, n =>
    if n < 10 then [digitChar n]
    else natDigitsF fuel (n / 10) ++ [digitChar (n % 10)]

/-- Decimal numeral of a natural number, most significant digit first.
Models how JS prints an integer-valued number via string interpolation. -/
def natDigits (n : Nat) : List Char := natDigitsF (n + 1) n

/-- Decimal numeral of an integer (with `-` sign when negative), as printed
by JS string interpolation of an integer-valued number. -/
def intChars (i : Int) : List Char :=
  if i < 0 then '-' :: natDigits i.natAbs else natDigits i.natAbs

/-- `intChars` packaged as a `String`. -/
def intToString (i : Int) : String := String.mk (intChars i)

/-- Accumulating decimal parser: consumes digit characters, `none` on any
non-digit. -/
def parseDigitsAux : List Char → Nat → Option Nat
  | [], acc => some acc
  | c :: cs, acc =>
    if isDigitC c then parseDigitsAux cs (acc * 10 + (c.toNat - 48)) else none

/-- Parse a non-empty all-digit string; `none` (≈ `NaN`) otherwise. -/
def parseDigits : List Char → Option Nat
  | [] => none
  | c :: cs => parseDigitsAux (c :: cs) 0

/-- Trim ASCII whitespace from both ends, modelling JS
`String.prototype.trim` on the inputs considered here. -/
def trimWs (cs : List Char) : List Char :=
  List.rdropWhile isWs (cs.dropWhile isWs)

/-- `trimWs` packaged on `String`s (models `stdout.trim()` etc.). -/
def trimStr (s : String) : String := String.mk (trimWs s.data)

/-- Model of the JS `Number(string)` conversion, restricted to
optional-sign decimal integer numerals surrounded by ASCII whitespace:
the empty (or all-whitespace) string converts to `0`, a string of digits
with an optional leading `'-'`/`'+'` converts to the corresponding integer,
and anything else is `NaN` (`none`).  This is the conversion applied to
each dot-separated component in `calculateNewVersion`
(`src/index.ts`, line 38: `currentVersion.split('.').map(Number)`). -/
def jsToNumber (cs : List Char) : Option Int :=
  let t := trimWs cs
  if t = [] then some 0
  else if t.head? = some '-' then
    (parseDigits (t.drop 1)).map (fun n : Nat => -(n : Int))
  else if t.head? = some '+' then
    (parseDigits (t.drop 1)).map (fun n : Nat => (n : Int))
  else (parseDigits t).map (fun n : Nat => (n : Int))

/-- Split a character list at every occurrence of `sep`, preserving empty
segments, as JS `String.prototype.split` does with a single-character
separator (`"".split('.') = [""]`, `"a.".split('.') = ["a",""]`). -/
def splitOnChar (sep : Char) : List Char → List (List Char)
  | [] => [[]]
  | c :: cs =>
    match splitOnChar sep cs with
    | [] => [[c]]
    | p :: ps => if c = sep then [] :: p :: ps else (c :: p) :: ps

/-- Embedding of `calculateNewVersion` (`src/index.ts`, lines 34–59).

The source computes `parts = currentVersion.split('.').map(Number)` and
throws `Invalid version format` when `parts.length !== 3 ||
parts.some(isNaN)`; otherwise it destructures `[major, minor, patch]` and
formats the bumped version with template literals.  The guard is exactly
the complement of the `[some _, some _, some _]` pattern below. -/
def calculateNewVersion (currentVersion : String) (bumpType : BumpType) :
    Except String String :=
  match (splitOnChar '.' currentVersion.data).map jsToNumber with
  | [some major, some minor, some patch] =>
    match bumpType with
    | .major => .ok (intToString (major + 1) ++ ".0.0")
    | .minor => .ok (intToString major ++ "." ++ intToString (minor + 1) ++ ".0")
    | .patch =>
      .ok (intToString major ++ "." ++ intToString minor ++ "." ++
        intToString (patch + 1))
  | _ =>
    .error ("Invalid version format: " ++ currentVersion ++
      ". Expected semantic version (e.g., 1.2.3)")

/-- JSON values, modelling the documents `JSON.parse` produces from the
manifest and config files.  Numbers are restricted to integer values (the
manifests considered here contain none).  Objects are association lists in
insertion order, as JS objects enumerate string keys. -/
inductive Json where
  | null
  | bool (b : Bool)
  | num (n : Int)
  | str (s : String)
  | arr (elems : List Json)
  | obj (fields : List (String × Json))

/-- JS truthiness of a JSON value: `null`, `false`, `0` and `""` are falsy;
every array and object is truthy. -/
def Json.truthy : Json → Bool
  | .null => false
  | .bool b => b
  | .num n => n ≠ 0
  | .str s => s ≠ ""
  | .arr _ => true
  | .obj _ => true

/-- First binding of `key` in an association list (JS property lookup on an
object without duplicate keys). -/
def getField : List (String × Json) → String → Option Json
  | [], _ => none
  | (k, v) :: rest, key => if k = key then some v else getField rest key

/-- JS property assignment `o[key] = v`: overwrite in place, keeping the
key's position, or append a new binding at the end. -/
def setField : List (String × Json) → String → Json → List (String × Json)
  | [], key, v => [(key, v)]
  | (k, w) :: rest, key, v =>
    if k = key then (key, v) :: rest else (k, w) :: setField rest key v

/-- Top-level property read `doc.version`-style: `none` on non-objects
(JS yields `undefined` for primitives/arrays here). -/
def getTopField (doc : Json) (key : String) : Option Json :=
  match doc with
  | .obj fields => getField fields key
  | _ => none

/-- `n` spaces of indentation. -/
def pad (n : Nat) : String := String.mk (List.replicate (2 * n) ' ')

/-- JSON string quoting as `JSON.stringify` performs it, restricted to the
escapes exercised here (backslash and double quote; control characters are
not modelled, no input considered contains one). -/
def quoteStr (s : String) : String :=
  "\"" ++ String.mk (s.data.flatMap (fun c =>
    if c = '\\' then ['\\', '\\']
    else if c = '"' then ['\\', '"']
    else [c])) ++ "\""

mutual

/-- Embedding of `JSON.stringify(value, null, 2)` at nesting depth `d`:
pretty-printed with 2-space indentation (`src/index.ts`, line 96). -/
def stringifyVal : Nat → Json → String
  | _, .null => "null"
  | _, .bool true => "true"
  | _, .bool false => "false"
  | _, .num n => intToString n
  | _, .str s => quoteStr s
  | _, .arr [] => "[]"
  | d, .arr (e :: es) =>
    "[\n" ++ stringifyItems (d + 1) (e :: es) ++ "\n" ++ pad d ++ "]"
  | _, .obj [] => "\x7b\x7d"
  | d, .obj (f :: fs) =>
    "\x7b\n" ++ stringifyFields (d + 1) (f :: fs) ++ "\n" ++ pad d ++ "\x7d"

/-- Array items, one per line, comma-separated. -/
def stringifyItems : Nat → List Json → String
  | _, [] => ""
  | d, [e] => pad d ++ stringifyVal d e
  | d, e :: e' :: es =>
    pad d ++ stringifyVal d e ++ ",\n" ++ stringifyItems d (e' :: es)

/-- Object fields, one per line, comma-separated. -/
def stringifyFields : Nat → List (String × Json) → String
  | _, [] => ""
  | d, [(k, v)] => pad d ++ quoteStr k ++ ": " ++ stringifyVal d v
  | d, (k, v) :: f :: fs =>
    pad d ++ quoteStr k ++ ": " ++ stringifyVal d v ++ ",\n" ++
      stringifyFields d (f :: fs)

end

/-- The exact bytes `updatePackageVersion` writes back:
`JSON.stringify(packageJson, null, 2) + '\n'` (`src/index.ts`, line 96). -/
def serializeManifest (doc : Json) : String := stringifyVal 0 doc ++ "\n"

/-- Embedding of `getCurrentVersion` (`src/index.ts`, lines 64–81) at the
level of the parsed document: the guard is `if (!packageJson.version)`,
so an absent *or falsy* version field raises the missing-version error,
and the stored value is returned otherwise.  (File absence and JSON parse
errors happen before this point and are modelled by the caller supplying
the parsed document.) -/
def getCurrentVersion (doc : Json) : Except String Json :=
  match getTopField doc "version" with
  | some v => if v.truthy then .ok v else .error "No version field found in package.json"
  | none => .error "No version field found in package.json"

/-- `getCurrentVersion` with the result used as a string, as every caller
does.  A truthy non-string version would make the caller's subsequent
`currentVersion.split('.')` throw a `TypeError`; that propagated failure is
modelled as an error here. -/
def getCurrentVersionStr (doc : Json) : Except String String :=
  match getCurrentVersion doc with
  | .ok (.str s) => .ok s
  | .ok _ => .error "TypeError: currentVersion.split is not a function"
  | .error e => .error e

/-- JS property assignment `packageJson.version = newVersion` on the parsed
document.  On a non-object document the assignment is a strict-mode
`TypeError` in JS; no caller reaches that case (the guard in
`getCurrentVersion` already rejected such documents), so it is modelled as
the identity. -/
def setTopVersion (doc : Json) (v : String) : Json :=
  match doc with
  | .obj fields => .obj (setField fields "version" (.str v))
  | other => other

/-- Embedding of `updatePackageVersion` (`src/index.ts`, lines 86–97):
re-read the document, overwrite only the `version` field, and write the
whole document back with 2-space indentation plus a trailing newline.
Returns the updated document and the exact file content written. -/
def updatePackageVersion (doc : Json) (newVersion : String) : Json × String :=
  let nd := setTopVersion doc newVersion
  (nd, serializeManifest nd)

/-- JS `a || b` on an optional string: the default is taken when the value
is absent (`undefined`) *or* falsy (the empty string). -/
def jsOrStr (a : Option String) (b : String) : String :=
  match a with
  | some s => if s = "" then b else s
  | none => b

/-- The result record of `bumpVersion` (`VersionInfo` in `src/index.ts`). -/
structure VersionInfo where
  oldVersion : String
  newVersion : String
deriving DecidableEq, Repr

/-- The `branches` option group of `BumpOptions` (`src/index.ts`). -/
structure Branches where
  source : Option String
  targets : Option (List String)
deriving DecidableEq, Repr

/-- The `BumpOptions` interface of `src/index.ts`; optional fields are
`Option`s, `none` standing for `undefined`. -/
structure BumpOptions where
  bumpType : BumpType
  branches : Option Branches
  commitMessage : Option String
  skipPush : Option Bool
  skipMerge : Option Bool
  packageFile : Option String
  dryRun : Option Bool
  createTag : Option Bool
  tagPrefix : Option String

/-- The default for the `branches` destructuring in `bumpVersion`
(`src/index.ts`, line 138): `{ source: 'develop', targets: ['UAT'] }`. -/
def defaultBranches : Branches := ⟨some "develop", some ["UAT"]⟩

/-- One observable side effect of a `bumpVersion` run: a git subcommand
issued, or the manifest file overwritten with the given content. -/
inductive Effect where
  | gitCmd (args : List String)
  | writeManifest (content : String)
deriving DecidableEq, Repr

/-- Outcome oracle for git subcommands: for each argument list, the
subprocess either succeeds with some stdout or fails with an error
message. -/
def GitOracle : Type := List String → Except String String

/-- Embedding of `execGit` (`src/index.ts`, lines 102–111): on success the
stdout is trimmed; on failure the raised error message is
`` `Git command failed: git ${args.join(' ')}\n${underlying}` ``. -/
def execGit (git : GitOracle) (args : List String) : Except String String :=
  match git args with
  | .ok out => .ok (trimStr out)
  | .error e =>
    .error ("Git command failed: git " ++ String.intercalate " " args ++ "\n" ++ e)

/-- Decidable success of one effect under the oracle: manifest writes
always succeed; a git command succeeds iff `execGit` does. -/
def effOk (git : GitOracle) : Effect → Bool
  | .gitCmd args => (execGit git args).isOk
  | .writeManifest _ => true

/-- Run effects in order, stopping at the first failing git command, as the
sequential `await`s of `bumpVersion` do.  Returns the effects actually
issued (including the failing one) and the raised message, if any. -/
def runEffects (git : GitOracle) : List Effect → List Effect × Option String
  | [] => ([], none)
  | e :: rest =>
    match e with
    | .writeManifest c =>
      let (tr, r) := runEffects git rest
      (Effect.writeManifest c :: tr, r)
    | .gitCmd args =>
      match execGit git args with
      | .ok _ =>
        let (tr, r) := runEffects git rest
        (Effect.gitCmd args :: tr, r)
      | .error msg => ([Effect.gitCmd args], some msg)

/-- Repository- or manifest-mutating effects.  The only two read-only git
subcommands the tool ever issues are the repository probe
`rev-parse --git-dir` and the branch query `branch --show-current`;
everything else (`fetch`, `switch`, `pull`, `add`, `commit`, `tag`,
`push`) mutates the working tree, the index, or the ref store. -/
def isMutatingEffect : Effect → Bool
  | .writeManifest _ => true
  | .gitCmd args =>
    !(args = ["rev-parse", "--git-dir"] || args = ["branch", "--show-current"])

/-- The manifest contents written during a run (empty for a run that never
reaches the write step). -/
def writesOf (tr : List Effect) : List String :=
  tr.filterMap (fun e =>
    match e with
    | .writeManifest c => some c
    | _ => none)

/-- The git commands issued for one target branch in the merge loop
(`src/index.ts`, lines 210–222): switch to it, pull, pull the source
branch from origin (the merge step), and push unless `skipPush`. -/
def targetCmds (skipPush : Bool) (sourceBranch targetBranch : String) :
    List Effect :=
  [.gitCmd ["switch", targetBranch], .gitCmd ["pull"],
   .gitCmd ["pull", "origin", sourceBranch]] ++
  (if skipPush then [] else [.gitCmd ["push", "origin", targetBranch]])

/-- Effects of the non-dry-run tail of `bumpVersion` before the per-target
merge loop (`src/index.ts`, lines 169–206): fetch, switch to the source
branch, pull, rewrite the manifest, stage and commit it, optionally tag,
and optionally push the branch and tags. -/
def preLoopPlan (sourceBranch message : String) (skipPush : Bool)
    (packageFile : String) (createTag : Bool) (tagPrefix : String)
    (manifest : Json) (newVersion : String) : List Effect :=
  [.gitCmd ["fetch"], .gitCmd ["switch", sourceBranch], .gitCmd ["pull"],
   .writeManifest (updatePackageVersion manifest newVersion).2,
   .gitCmd ["add", packageFile], .gitCmd ["commit", "-m", message]] ++
  (if createTag then [.gitCmd ["tag", tagPrefix ++ newVersion]] else []) ++
  (if skipPush then []
   else [.gitCmd ["push", "origin", sourceBranch]] ++
     (if createTag then [.gitCmd ["push", "origin", "--tags"]] else []))

/-- Effects of the per-target merge loop plus the final switch back
(`src/index.ts`, lines 209–227), guarded by
`!skipMerge && branches.targets && branches.targets.length > 0`. -/
def loopPlan (targets : Option (List String)) (skipMerge skipPush : Bool)
    (sourceBranch : String) : List Effect :=
  match targets with
  | some ts =>
    if !skipMerge && !ts.isEmpty then
      (ts.map (targetCmds skipPush sourceBranch)).flatten ++
        [.gitCmd ["switch", sourceBranch]]
    else []
  | none => []

/-- Embedding of `bumpVersion` (`src/index.ts`, lines 135–232).

Inputs: the git oracle, the parsed manifest document, and the options
record.  Output: the effects issued, in order, and the overall result.
The effect sequence of a non-dry run is a pure function of the inputs
(no issued command's arguments depend on a previous command's stdout),
so the run is modelled as that planned sequence executed until the first
failure. -/
def bumpVersion (git : GitOracle) (manifest : Json) (options : BumpOptions) :
    List Effect × Except String VersionInfo :=
  let branches := options.branches.getD defaultBranches
  let skipPush := options.skipPush.getD false
  let skipMerge := options.skipMerge.getD false
  let packageFile := options.packageFile.getD "package.json"
  let dryRun := options.dryRun.getD false
  let createTag := options.createTag.getD true
  let tagPrefix := options.tagPrefix.getD "v"
  let probe := Effect.gitCmd ["rev-parse", "--git-dir"]
  if (execGit git ["rev-parse", "--git-dir"]).isOk = false then
    ([probe], .error "Not a git repository")
  else
    match getCurrentVersionStr manifest with
    | .error e => ([probe], .error e)
    | .ok currentVersion =>
      match calculateNewVersion currentVersion options.bumpType with
      | .error e => ([probe], .error e)
      | .ok newVersion =>
        if dryRun then
          ([probe], .ok ⟨currentVersion, newVersion⟩)
        else
          let sourceBranch := jsOrStr branches.source "develop"
          let message := jsOrStr options.commitMessage ("build: " ++ newVersion)
          let plan :=
            preLoopPlan sourceBranch message skipPush packageFile createTag
              tagPrefix manifest newVersion ++
            loopPlan branches.targets skipMerge skipPush sourceBranch
          let (tr, err) := runEffects git plan
          (probe :: tr,
            match err with
            | some m => .error m
            | none => .ok ⟨currentVersion, newVersion⟩)

/-- Is `pat` an initial segment of `s`? -/
def startsWithPat : List Char → List Char → Bool
  | [], _ => true
  | _ :: _, [] => false
  | p :: ps, c :: cs => p = c && startsWithPat ps cs

/-- Replace the first occurrence of `pat` in `cs` by `rep`, as the JS
`String.prototype.replace(string, string)` used for the `{version}`
placeholder does (only the first occurrence is replaced). -/
def replaceFirstChars (cs pat rep : List Char) : List Char :=
  match cs with
  | [] => []
  | c :: rest =>
    if startsWithPat pat (c :: rest) then
      rep ++ (c :: rest).drop pat.length
    else c :: replaceFirstChars rest pat rep

/-- `replaceFirstChars` packaged on `String`s. -/
def replaceFirst (s pat rep : String) : String :=
  String.mk (replaceFirstChars s.data pat.data rep.data)

/-- Embedding of the `-t` override parsing (`src/cli.ts`, line 90):
`options.targets.split(',').map((b) => b.trim())`.  Empty segments are
preserved by `split` and remain as empty strings after trimming. -/
def parseTargets (s : String) : List String :=
  (splitOnChar ',' s.data).map (fun cs => String.mk (trimWs cs))

/-- The `VBumpConfig` interface of `src/cli.ts` (the parsed `vbump.json`);
every field is optional. -/
structure VBumpConfig where
  branches : Option Branches
  commitMessageTemplate : Option String
  packageFile : Option String
  createTag : Option Bool
  tagPrefix : Option String

/-- The result of `loadConfig` when no `vbump.json` exists (or it fails to
parse): the empty configuration (`src/cli.ts`, lines 29–45). -/
def emptyConfig : VBumpConfig := ⟨none, none, none, none, none⟩

/-- The commander option record of the main `vbump` command
(`src/cli.ts`, lines 56–68).  Boolean flags are `false` when absent;
value options are `none` when absent. -/
structure CliOptions where
  major : Bool
  minor : Bool
  patch : Bool
  message : Option String
  source : Option String
  targets : Option String
  skipPush : Bool
  skipMerge : Bool
  file : Option String
  dryRun : Bool
  tag : Option Bool
  tagPrefix : Option String

/-- Bump-type selection from the flags (`src/cli.ts`, lines 72–75):
`--major` wins over `--minor` wins over `--patch`; none set is an error. -/
def bumpTypeOf (o : CliOptions) : Option BumpType :=
  if o.major then some .major
  else if o.minor then some .minor
  else if o.patch then some .patch
  else none

/-- The template arm of the commit-message resolution
(`src/cli.ts`, lines 102–109): when a truthy `commitMessageTemplate` is
configured, read the *current* version from the manifest and substitute it
for the `{version}` placeholder. -/
def resolveFromTemplate (config : VBumpConfig) (manifest : Json) :
    Except String (Option String) :=
  match config.commitMessageTemplate with
  | some tmpl =>
    if tmpl = "" then .ok none
    else
      match getCurrentVersionStr manifest with
      | .ok cur => .ok (some (replaceFirst tmpl "{version}" cur))
      | .error e => .error e
  | none => .ok none

/-- The full commit-message resolution (`src/cli.ts`, lines 100–109):
`options.message || (config.commitMessageTemplate ? ... : undefined)`. -/
def resolveCommitMessage (config : VBumpConfig) (o : CliOptions)
    (manifest : Json) : Except String (Option String) :=
  match o.message with
  | some m =>
    if m = "" then resolveFromTemplate config manifest else .ok (some m)
  | none => resolveFromTemplate config manifest

/-- Embedding of the option merge in the CLI action
(`src/cli.ts`, lines 69–117): CLI flags win over `vbump.json` values,
which win over the hard-coded defaults (`'develop'`, `['UAT']`,
`'package.json'`, `createTag = true`, `tagPrefix = 'v'`).  `manifest` is
the parsed document of the resolved package file, consulted only when a
commit-message template must be instantiated. -/
def resolveBumpOptions (config : VBumpConfig) (o : CliOptions)
    (manifest : Json) : Except String BumpOptions :=
  match bumpTypeOf o with
  | none => .error "Please specify a bump type: --major, --minor, or --patch"
  | some bumpType =>
    let cfgTargets := config.branches.bind (fun b => b.targets)
    let targets : Option (List String) :=
      match o.targets with
      | some s => if s = "" then cfgTargets else some (parseTargets s)
      | none => cfgTargets
    match resolveCommitMessage config o manifest with
    | .error e => .error e
    | .ok commitMessage =>
      .ok
        { bumpType := bumpType
          branches := some
            ⟨some (jsOrStr o.source
                (jsOrStr (config.branches.bind (fun b => b.source)) "develop")),
              some (match targets with | none => ["UAT"] | some l => l)⟩
          commitMessage := commitMessage
          skipPush := some o.skipPush
          skipMerge := some o.skipMerge
          packageFile := some (jsOrStr o.file
            (jsOrStr config.packageFile "package.json"))
          dryRun := some o.dryRun
          createTag := some
            (match o.tag with
             | some b => b
             | none => config.createTag.getD true)
          tagPrefix := some (jsOrStr o.tagPrefix
            (jsOrStr config.tagPrefix "v")) }

/-- Canonical decimal numeral of a natural number as a `String`. -/
def natStr (n : Nat) : String := String.mk (natDigits n)

/-- Number of occurrences of a character in a character list. -/
def countChar (c : Char) : List Char → Nat
  | [] => 0
  | x :: xs => (if x = c then 1 else 0) + countChar c xs

/-- The source branch a `bumpVersion` run resolves
(`src/index.ts`, line 174): the `branches.source` option when truthy,
else `'develop'`. -/
def sourceOf (opts : BumpOptions) : String :=
  jsOrStr (opts.branches.getD defaultBranches).source "develop"

/-- The commit message a `bumpVersion` run resolves
(`src/index.ts`, line 184): the `commitMessage` option when truthy, else
`` `build: ${newVersion}` ``. -/
def messageOf (opts : BumpOptions) (newVersion : String) : String :=
  jsOrStr opts.commitMessage ("build: " ++ newVersion)

/-- The pre-merge-loop effects of a non-dry `bumpVersion` run with resolved
option defaults. -/
def preOf (opts : BumpOptions) (manifest : Json) (newVersion : String) :
    List Effect :=
  preLoopPlan (sourceOf opts) (messageOf opts newVersion)
    (opts.skipPush.getD false) (opts.packageFile.getD "package.json")
    (opts.createTag.getD true) (opts.tagPrefix.getD "v") manifest newVersion

/-- The merge-loop effects for a given list of target branches (without the
final switch back). -/
def tsegs (opts : BumpOptions) (ts : List String) : List Effect :=
  (ts.map (targetCmds (opts.skipPush.getD false) (sourceOf opts))).flatten

/-! ## Concrete fixtures used by individual theorems and witnesses -/

/-- A manifest document: `{"name": "demo", "version": "1.2.3"}`. -/
def demoManifest : Json :=
  .obj [("name", .str "demo"), ("version", .str "1.2.3")]

/-- A git oracle on which every subcommand succeeds with empty stdout. -/
def allOkGit : GitOracle := fun _ => .ok ""

/-- CLI invocation `vbump --minor` with no other flags. -/
def minorOnlyOpts : CliOptions :=
  ⟨false, true, false, none, none, none, false, false, none, false, none, none⟩

/-- `minorOnlyOpts` with a `-t` targets override. -/
def withTargets (s : String) : CliOptions :=
  { minorOnlyOpts with targets := some s }

/-- `minorOnlyOpts` with a `--tag-prefix` override. -/
def withTagPrefix (o : String) : CliOptions :=
  { minorOnlyOpts with tagPrefix := some o }

/-- A persisted `vbump.json` carrying only a `tagPrefix`. -/
def cfgTagPrefix (p : String) : VBumpConfig :=
  ⟨none, none, none, none, some p⟩

/-- A persisted `vbump.json` carrying only the commit-message template
`"build: {version}"`. -/
def tmplConfig : VBumpConfig :=
  ⟨none, some "build: {version}", none, none, none⟩

/-- The option record the CLI produces for `vbump --minor` with no config
file and no overrides. -/
def defaultResolved : BumpOptions :=
  ⟨.minor, some ⟨some "develop", some ["UAT"]⟩, none, some false, some false,
    some "package.json", some false, some true, some "v"⟩

/-- The option record the CLI produces for `vbump --minor` under
`tmplConfig` against `demoManifest`. -/
def tmplResolved : BumpOptions :=
  ⟨.minor, some ⟨some "develop", some ["UAT"]⟩, some "build: 1.2.3",
    some false, some false, some "package.json", some false, some true,
    some "v"⟩

/-- A git oracle on which exactly the subcommand `push origin A` fails. -/
def failPushAGit : GitOracle := fun args =>
  if args = ["push", "origin", "A"] then .error "boom" else .ok ""

/-- Options with source branch `develop` and target branches `A`, `B`. -/
def optsAB : BumpOptions :=
  ⟨.minor, some ⟨some "develop", some ["A", "B"]⟩, none, some false,
    some false, some "package.json", some false, some true, some "v"⟩

/-- Options for a dry run of a minor bump with library defaults. -/
def dryRunOpts : BumpOptions :=
  ⟨.minor, none, none, none, none, none, some true, none, none⟩

/-! ## Character and numeral lemmas -/

theorem digitChar_isDigit {d : Nat} (h : d < 10) :
    isDigitC (digitChar d) = true := by
  interval_cases d <;> decide

theorem digitChar_toNat {d : Nat} (h : d < 10) :
    (digitChar d).toNat = 48 + d := by
  interval_cases d <;> decide

theorem isDigit_not_ws {c : Char} (h : isDigitC c = true) :
    isWs c = false := by
  simp only [isDigitC, Bool.and_eq_true, decide_eq_true_eq] at h
  simp only [isWs, Bool.or_eq_false_iff, decide_eq_false_iff_not]
  omega

theorem isDigit_ne_dot {c : Char} (h : isDigitC c = true) : c ≠ '.' := by
  rintro rfl
  simp [isDigitC] at h

theorem isDigit_ne_dash {c : Char} (h : isDigitC c = true) : c ≠ '-' := by
  rintro rfl
  simp [isDigitC] at h

theorem isDigit_ne_plus {c : Char} (h : isDigitC c = true) : c ≠ '+' := by
  rintro rfl
  simp [isDigitC] at h

theorem natDigitsF_congr :
    ∀ fuel₁ fuel₂ n, n < fuel₁ → n < fuel₂ →
      natDigitsF fuel₁ n = natDigitsF fuel₂ n := by
  intro fuel₁
  induction fuel₁ with
  | zero => omega
  | succ f ih =>
    intro fuel₂ n h1 h2
    cases fuel₂ with
    | zero => omega
    | succ g =>
      simp only [natDigitsF]
      by_cases hn : n < 10
      · simp [hn]
      · simp only [if_neg hn]
        have hdiv : n / 10 < n := Nat.div_lt_self (by omega) (by omega)
        rw [ih g (n / 10) (by omega) (by omega)]

/-- The recursive unfolding of `natDigits`. -/
theorem natDigits_eq (n : Nat) :
    natDigits n =
      if n < 10 then [digitChar n]
      else natDigits (n / 10) ++ [digitChar (n % 10)] := by
  show natDigitsF (n + 1) n = _
  simp only [natDigitsF]
  by_cases hn : n < 10
  · simp [hn]
  · simp only [if_neg hn]
    have hdiv : n / 10 < n := Nat.div_lt_self (by omega) (by omega)
    rw [natDigitsF_congr n (n / 10 + 1) (n / 10) (by omega) (by omega)]
    rfl

theorem natDigits_ne_nil (n : Nat) : natDigits n ≠ [] := by
  rw [natDigits_eq]
  split <;> simp

theorem natDigits_all_digit (n : Nat) :
    ∀ c ∈ natDigits n, isDigitC c = true := by
  induction n using Nat.strong_induction_on with
  | _ n ih =>
    rw [natDigits_eq]
    split
    · next h =>
      intro c hc
      simp only [List.mem_singleton] at hc
      exact hc ▸ digitChar_isDigit h
    · next h =>
      intro c hc
      rcases List.mem_append.mp hc with h1 | h1
      · exact ih (n / 10) (Nat.div_lt_self (by omega) (by omega)) c h1
      · simp only [List.mem_singleton] at h1
        exact h1 ▸ digitChar_isDigit (Nat.mod_lt _ (by omega))

theorem parseDigitsAux_append (xs ys : List Char) (acc : Nat) :
    parseDigitsAux (xs ++ ys) acc =
      (parseDigitsAux xs acc).bind (fun m => parseDigitsAux ys m) := by
  induction xs generalizing acc with
  | nil => simp [parseDigitsAux]
  | cons c cs ih =>
    simp only [List.cons_append, parseDigitsAux]
    by_cases h : isDigitC c
    · simp [h, ih]
    · simp [h]

theorem parseDigitsAux_natDigits (n : Nat) :
    ∀ acc, parseDigitsAux (natDigits n) acc =
      some (acc * 10 ^ (natDigits n).length + n) := by
  induction n using Nat.strong_induction_on with
  | _ n ih =>
    intro acc
    rw [natDigits_eq]
    split
    · next h =>
      simp [parseDigitsAux, digitChar_isDigit h, digitChar_toNat h]
    · next h =>
      rw [parseDigitsAux_append, ih (n / 10) (Nat.div_lt_self (by omega) (by omega)) acc]
      have hm : n % 10 < 10 := Nat.mod_lt _ (by omega)
      simp only [Option.some_bind, parseDigitsAux, digitChar_isDigit hm,
        if_pos, digitChar_toNat hm, List.length_append, List.length_singleton]
      congr 1
      have h48 : 48 + n % 10 - 48 = n % 10 := by omega
      rw [h48, pow_succ]
      calc (acc * 10 ^ (natDigits (n / 10)).length + n / 10) * 10 + n % 10
          = acc * (10 ^ (natDigits (n / 10)).length * 10) +
              (10 * (n / 10) + n % 10) := by ring
        _ = acc * (10 ^ (natDigits (n / 10)).length * 10) + n := by
            rw [Nat.div_add_mod]

theorem parseDigits_natDigits (n : Nat) :
    parseDigits (natDigits n) = some n := by
  have h := parseDigitsAux_natDigits n 0
  rcases hd : natDigits n with _ | ⟨c, cs⟩
  · exact absurd hd (natDigits_ne_nil n)
  · rw [hd] at h
    simpa [parseDigits] using h

/-! ## Trimming lemmas -/

theorem dropWhile_eq_self_of_all {p : Char → Bool} {cs : List Char}
    (h : ∀ c ∈ cs, p c = false) : cs.dropWhile p = cs := by
  cases cs with
  | nil => rfl
  | cons c rest =>
    exact List.dropWhile_cons_of_neg (by simp [h c (List.mem_cons_self c rest)])

theorem rdropWhile_eq_self_of_all {p : Char → Bool} {cs : List Char}
    (h : ∀ c ∈ cs, p c = false) : List.rdropWhile p cs = cs := by
  apply List.rdropWhile_eq_self_iff.mpr
  intro hl
  simp [h _ (List.getLast_mem hl)]

theorem trimWs_eq_self_of_all {cs : List Char}
    (h : ∀ c ∈ cs, isWs c = false) : trimWs cs = cs := by
  unfold trimWs
  rw [dropWhile_eq_self_of_all h, rdropWhile_eq_self_of_all h]

theorem dropWhile_rdropWhile {p : Char → Bool} {l : List Char}
    (h : l.dropWhile p = l) :
    (List.rdropWhile p l).dropWhile p = List.rdropWhile p l := by
  obtain ⟨t, ht⟩ := List.rdropWhile_prefix p l
  cases hq : List.rdropWhile p l with
  | nil => rfl
  | cons c cs =>
    apply List.dropWhile_cons_of_neg
    rw [hq] at ht
    intro hp
    rw [← ht, List.cons_append, List.dropWhile_cons_of_pos hp] at h
    have hle : ((cs ++ t).dropWhile p).length ≤ (cs ++ t).length :=
      (List.dropWhile_suffix p).length_le
    rw [h] at hle
    simp at hle

theorem trimWs_idem (cs : List Char) : trimWs (trimWs cs) = trimWs cs := by
  unfold trimWs
  rw [dropWhile_rdropWhile (List.dropWhile_idempotent isWs cs),
    List.rdropWhile_idempotent]

/-! ## `jsToNumber` on canonical numerals -/

theorem jsToNumber_natDigits (n : Nat) :
    jsToNumber (natDigits n) = some (n : Int) := by
  have hall : ∀ c ∈ natDigits n, isWs c = false := fun c hc =>
    isDigit_not_ws (natDigits_all_digit n c hc)
  obtain ⟨c, cs, hd⟩ : ∃ c cs, natDigits n = c :: cs := by
    rcases h : natDigits n with _ | ⟨c, cs⟩
    · exact absurd h (natDigits_ne_nil n)
    · exact ⟨c, cs, rfl⟩
  have hdig : isDigitC c = true :=
    natDigits_all_digit n c (by rw [hd]; exact List.mem_cons_self c cs)
  unfold jsToNumber
  rw [trimWs_eq_self_of_all hall, hd]
  rw [if_neg (by simp), if_neg (by simp [isDigit_ne_dash hdig]),
    if_neg (by simp [isDigit_ne_plus hdig]), ← hd, parseDigits_natDigits]
  rfl

theorem jsToNumber_intChars (i : Int) : jsToNumber (intChars i) = some i := by
  by_cases hneg : i < 0
  · have hd : intChars i = '-' :: natDigits i.natAbs := by
      simp [intChars, hneg]
    have hall : ∀ c ∈ intChars i, isWs c = false := by
      rw [hd]
      intro c hc
      rcases List.mem_cons.mp hc with rfl | hc
      · decide
      · exact isDigit_not_ws (natDigits_all_digit _ c hc)
    unfold jsToNumber
    rw [trimWs_eq_self_of_all hall, hd]
    rw [if_neg (by simp), if_pos (by simp)]
    simp only [List.drop_succ_cons, List.drop_zero, parseDigits_natDigits,
      Option.map_some', Option.some.injEq]
    omega
  · have hd : intChars i = natDigits i.natAbs := by
      simp [intChars, hneg]
    rw [hd, jsToNumber_natDigits]
    congr 1
    omega

/-! ## `splitOnChar` lemmas -/

theorem splitOnChar_ne_nil (sep : Char) (cs : List Char) :
    splitOnChar sep cs ≠ [] := by
  cases cs with
  | nil => simp [splitOnChar]
  | cons c rest =>
    simp only [splitOnChar]
    cases hs : splitOnChar sep rest with
    | nil => simp
    | cons p ps => by_cases hc : c = sep <;> simp [hc]

theorem splitOnChar_append (sep : Char) (a b : List Char) :
    splitOnChar sep (a ++ sep :: b) =
      splitOnChar sep a ++ splitOnChar sep b := by
  induction a with
  | nil =>
    simp only [List.nil_append, splitOnChar]
    cases hs : splitOnChar sep b with
    | nil => exact absurd hs (splitOnChar_ne_nil sep b)
    | cons p ps => simp
  | cons c cs ih =>
    simp only [List.cons_append, splitOnChar, List.append_eq]
    rw [ih]
    cases hs : splitOnChar sep cs with
    | nil => exact absurd hs (splitOnChar_ne_nil sep cs)
    | cons p ps =>
      simp only [List.cons_append]
      by_cases hc : c = sep <;> simp [hc]

theorem splitOnChar_no_sep {sep : Char} {cs : List Char} (h : sep ∉ cs) :
    splitOnChar sep cs = [cs] := by
  induction cs with
  | nil => rfl
  | cons c rest ih =>
    have hc : c ≠ sep := fun hc => h (hc ▸ List.mem_cons_self c rest)
    have hrest : sep ∉ rest := fun hr => h (List.mem_cons_of_mem c hr)
    simp only [splitOnChar, ih hrest]
    rw [if_neg hc]

theorem splitOnChar_length (sep : Char) (cs : List Char) :
    (splitOnChar sep cs).length = countChar sep cs + 1 := by
  induction cs with
  | nil => rfl
  | cons c rest ih =>
    simp only [splitOnChar, countChar]
    rcases hs : splitOnChar sep rest with _ | ⟨p, ps⟩
    · exact absurd hs (splitOnChar_ne_nil sep rest)
    · rw [hs] at ih
      by_cases hc : c = sep
      · simp only [if_pos hc, List.length_cons] at ih ⊢
        omega
      · simp only [if_neg hc, List.length_cons] at ih ⊢
        omega

/-! ## `calculateNewVersion` on well-formed inputs -/

theorem natDigits_no_dot (n : Nat) : '.' ∉ natDigits n := by
  intro h
  have := natDigits_all_digit n '.' h
  simp [isDigitC] at this

theorem intChars_no_dot (i : Int) : '.' ∉ intChars i := by
  unfold intChars
  split
  · intro h
    rcases List.mem_cons.mp h with h | h
    · exact absurd h (by decide)
    · exact natDigits_no_dot _ h
  · exact natDigits_no_dot _

theorem intVer_data (X Y Z : Int) :
    (intToString X ++ "." ++ intToString Y ++ "." ++ intToString Z).data =
      intChars X ++ '.' :: (intChars Y ++ '.' :: intChars Z) := by
  have hdot : (".").data = ['.'] := rfl
  simp [intToString, String.data_append, hdot, List.append_assoc]

theorem intVer_parts (X Y Z : Int) :
    (splitOnChar '.'
        (intToString X ++ "." ++ intToString Y ++ "." ++ intToString Z).data).map
      jsToNumber = [some X, some Y, some Z] := by
  rw [intVer_data, splitOnChar_append, splitOnChar_no_sep (intChars_no_dot X),
    splitOnChar_append, splitOnChar_no_sep (intChars_no_dot Y),
    splitOnChar_no_sep (intChars_no_dot Z)]
  simp [jsToNumber_intChars]

theorem calculateNewVersion_of_parts {s : String} {X Y Z : Int}
    (h : (splitOnChar '.' s.data).map jsToNumber = [some X, some Y, some Z]) :
    calculateNewVersion s .major = .ok (intToString (X + 1) ++ ".0.0") ∧
    calculateNewVersion s .minor =
      .ok (intToString X ++ "." ++ intToString (Y + 1) ++ ".0") ∧
    calculateNewVersion s .patch =
      .ok (intToString X ++ "." ++ intToString Y ++ "." ++ intToString (Z + 1)) := by
  refine ⟨?_, ?_, ?_⟩ <;> (unfold calculateNewVersion; rw [h])

theorem intToString_coe_nat (n : Nat) : intToString (n : Int) = natStr n := by
  have h : ¬((n : Int) < 0) := by omega
  simp [intToString, natStr, intChars, h]

/-- Claim C3 (counterexample): the claim states that every input with a
negative or signed component fails with the invalid-version-format error;
in fact `calculateNewVersion "1.-2.3" minor` succeeds and returns
`"1.-1.0"`, because `Number("-2") = -2` is not `NaN`. -/
theorem calculateNewVersion_accepts_signed_component :
    calculateNewVersion "1.-2.3" .minor = .ok "1.-1.0" := by rfl

/-- Claim C3 (amended): `calculateNewVersion` fails with the
invalid-version-format error unless the input splits on `'.'` into exactly
three components each convertible to a number by JS `Number` semantics;
the spec's listed malformed inputs (`"1.2"`, `"1.2.3.4"`, `"1.a.3"`, `""`)
all fail, but components with a leading sign are *accepted*: for all
integers X, Y, Z (possibly negative), `"X.Y.Z"` is bumped normally rather
than rejected. -/
theorem calculateNewVersion_js_number_semantics :
    (∀ bt : BumpType,
      (calculateNewVersion "1.2" bt).isOk = false ∧
      (calculateNewVersion "1.2.3.4" bt).isOk = false ∧
      (calculateNewVersion "1.a.3" bt).isOk = false ∧
      (calculateNewVersion "" bt).isOk = false) ∧
    (∀ X Y Z : Int,
      calculateNewVersion
          (intToString X ++ "." ++ intToString Y ++ "." ++ intToString Z)
          .major = .ok (intToString (X + 1) ++ ".0.0") ∧
      calculateNewVersion
          (intToString X ++ "." ++ intToString Y ++ "." ++ intToString Z)
          .minor = .ok (intToString X ++ "." ++ intToString (Y + 1) ++ ".0") ∧
      calculateNewVersion
          (intToString X ++ "." ++ intToString Y ++ "." ++ intToString Z)
          .patch =
        .ok (intToString X ++ "." ++ intToString Y ++ "." ++
          intToString (Z + 1))) := by
  constructor
  · intro bt
    cases bt <;> exact ⟨rfl, rfl, rfl, rfl⟩
  · intro X Y Z
    exact calculateNewVersion_of_parts (intVer_parts X Y Z)

/-- Claim C4: for every version string `"X.Y.Z"` built from non-negative
integers X, Y, Z, `calculateNewVersion` returns `"(X+1).0.0"` for a major
bump, `"X.(Y+1).0"` for a minor bump and `"X.Y.(Z+1)"` for a patch bump
(it is a pure Lean function, hence deterministic and side-effect-free). -/
theorem calculateNewVersion_bumps_canonical_versions (X Y Z : Nat) :
    calculateNewVersion (natStr X ++ "." ++ natStr Y ++ "." ++ natStr Z)
        .major = .ok (natStr (X + 1) ++ ".0.0") ∧
    calculateNewVersion (natStr X ++ "." ++ natStr Y ++ "." ++ natStr Z)
        .minor = .ok (natStr X ++ "." ++ natStr (Y + 1) ++ ".0") ∧
    calculateNewVersion (natStr X ++ "." ++ natStr Y ++ "." ++ natStr Z)
        .patch = .ok (natStr X ++ "." ++ natStr Y ++ "." ++ natStr (Z + 1)) := by
  have h := calculateNewVersion_of_parts
    (intVer_parts (X : Int) (Y : Int) (Z : Int))
  have c1 : ((X : Int) + 1) = ((X + 1 : Nat) : Int) := by push_cast; ring
  have c2 : ((Y : Int) + 1) = ((Y + 1 : Nat) : Int) := by push_cast; ring
  have c3 : ((Z : Int) + 1) = ((Z + 1 : Nat) : Int) := by push_cast; ring
  rw [c1, c2, c3, intToString_coe_nat, intToString_coe_nat,
    intToString_coe_nat, intToString_coe_nat, intToString_coe_nat,
    intToString_coe_nat] at h
  exact h

/-! ## Manifest store: field update and truthiness -/

theorem getField_setField_self (fields : List (String × Json)) (k : String)
    (v : Json) : getField (setField fields k v) k = some v := by
  induction fields with
  | nil => simp [setField, getField]
  | cons f rest ih =>
    obtain ⟨k', w⟩ := f
    by_cases h : k' = k
    · simp [setField, getField, h]
    · simp [setField, getField, h, ih]

theorem getField_setField_ne (fields : List (String × Json)) {k k' : String}
    (v : Json) (h : k' ≠ k) :
    getField (setField fields k v) k' = getField fields k' := by
  have hk : ¬(k = k') := fun he => h he.symm
  induction fields with
  | nil => simp [setField, getField, hk]
  | cons f rest ih =>
    obtain ⟨k₀, w⟩ := f
    by_cases h0 : k₀ = k
    · subst h0
      simp [setField, getField, hk]
    · simp [setField, getField, h0, ih]

/-- Claim C6: after `updatePackageVersion` writes version `"2.0.0"` into any
manifest object, reading it back through `getCurrentVersion` yields
`"2.0.0"`; every other top-level field keeps its value; and the written
file content ends with a newline (it is by construction
`JSON.stringify(doc, null, 2) + '\n'`, the 2-space-indented rendering —
see the witness for a concrete rendering). -/
theorem updatePackageVersion_roundtrip (fields : List (String × Json)) :
    getCurrentVersionStr (updatePackageVersion (Json.obj fields) "2.0.0").1 =
      .ok "2.0.0" ∧
    (∀ k v, k ≠ "version" → getField fields k = some v →
      getTopField (updatePackageVersion (Json.obj fields) "2.0.0").1 k =
        some v) ∧
    (updatePackageVersion (Json.obj fields) "2.0.0").2 =
      serializeManifest (setTopVersion (Json.obj fields) "2.0.0") ∧
    (updatePackageVersion (Json.obj fields) "2.0.0").2.data.getLast? =
      some '\n' := by
  refine ⟨?_, ?_, rfl, ?_⟩
  · simp [updatePackageVersion, setTopVersion, getCurrentVersionStr,
      getCurrentVersion, getTopField, getField_setField_self, Json.truthy]
  · intro k v hk hget
    simp [updatePackageVersion, setTopVersion, getTopField,
      getField_setField_ne fields _ hk, hget]
  · have hdata : (updatePackageVersion (Json.obj fields) "2.0.0").2.data =
        (stringifyVal 0 (setTopVersion (Json.obj fields) "2.0.0")).data ++
          ['\n'] := by
      simp [updatePackageVersion, serializeManifest, String.data_append]
    rw [hdata, List.getLast?_concat]

/-- Claim C6 (witness): on the concrete manifest
`{"name": "pkg", "version": "1.0.0"}` the round-trip holds, the `name`
field survives unchanged, and the written bytes are the 2-space-indented
rendering with a trailing newline. -/
theorem updatePackageVersion_roundtrip_witness :
    (getCurrentVersionStr
        (updatePackageVersion
          (Json.obj [("name", .str "pkg"), ("version", .str "1.0.0")])
          "2.0.0").1 = .ok "2.0.0" ∧
      getTopField
        (updatePackageVersion
          (Json.obj [("name", .str "pkg"), ("version", .str "1.0.0")])
          "2.0.0").1 "name" = some (.str "pkg")) ∧
    (updatePackageVersion
        (Json.obj [("name", .str "pkg"), ("version", .str "1.0.0")])
        "2.0.0").2 =
      "\x7b\n  \"name\": \"pkg\",\n  \"version\": \"2.0.0\"\n\x7d\n" := by
  have h := updatePackageVersion_roundtrip
    [("name", .str "pkg"), ("version", .str "1.0.0")]
  exact ⟨⟨h.1, h.2.1 "name" (.str "pkg") (by decide) rfl⟩, rfl⟩

/-- Claim C10: `getCurrentVersion` rejects a manifest object whose
`version` field is present but falsy (`""`, `0`, `false`, `null`) with the
missing-version-field error, because its guard is JS truthiness
(`if (!packageJson.version)`), and every value it does return is truthy. -/
theorem getCurrentVersion_requires_truthy :
    (∀ (fields : List (String × Json)) (v : Json),
      getField fields "version" = some v → v.truthy = false →
      getCurrentVersion (Json.obj fields) =
        .error "No version field found in package.json") ∧
    (∀ (doc : Json) (v : Json),
      getCurrentVersion doc = .ok v → v.truthy = true) := by
  constructor
  · intro fields v hget hfalsy
    simp [getCurrentVersion, getTopField, hget, hfalsy]
  · intro doc v hok
    unfold getCurrentVersion at hok
    cases hget : getTopField doc "version" with
    | none => simp [hget] at hok
    | some w =>
      simp only [hget] at hok
      by_cases ht : w.truthy
      · simp only [if_pos ht] at hok
        cases hok
        exact ht
      · simp only [if_neg ht] at hok
        cases hok

/-- Claim C10 (witness): the four falsy version values are all rejected,
and a truthy value read back is indeed truthy. -/
theorem getCurrentVersion_requires_truthy_witness :
    getCurrentVersion (Json.obj [("version", .str "")]) =
      .error "No version field found in package.json" ∧
    getCurrentVersion (Json.obj [("version", .num 0)]) =
      .error "No version field found in package.json" ∧
    getCurrentVersion (Json.obj [("version", .bool false)]) =
      .error "No version field found in package.json" ∧
    getCurrentVersion (Json.obj [("version", .null)]) =
      .error "No version field found in package.json" ∧
    (Json.str "1.2.3").truthy = true := by
  refine ⟨?_, ?_, ?_, ?_, ?_⟩
  · exact getCurrentVersion_requires_truthy.1 [("version", .str "")]
      (.str "") rfl rfl
  · exact getCurrentVersion_requires_truthy.1 [("version", .num 0)]
      (.num 0) rfl rfl
  · exact getCurrentVersion_requires_truthy.1 [("version", .bool false)]
      (.bool false) rfl rfl
  · exact getCurrentVersion_requires_truthy.1 [("version", .null)]
      (.null) rfl rfl
  · exact getCurrentVersion_requires_truthy.2 demoManifest (.str "1.2.3") rfl

/-! ## Configuration resolution -/

/-- Claim C7: option resolution is field-by-field with precedence
CLI override > persisted config > built-in default, shown on `tagPrefix`:
with persisted `p` and override `o` (both non-empty, hence truthy) the
resolved prefix is `o`; with only the persisted value it is `p`; with
neither it is the default `"v"`. -/
theorem tagPrefix_precedence (o p : String) (ho : o ≠ "") (hp : p ≠ "") :
    (resolveBumpOptions (cfgTagPrefix p) (withTagPrefix o) demoManifest).map
        (fun bo => bo.tagPrefix) = .ok (some o) ∧
    (resolveBumpOptions (cfgTagPrefix p) minorOnlyOpts demoManifest).map
        (fun bo => bo.tagPrefix) = .ok (some p) ∧
    (resolveBumpOptions emptyConfig minorOnlyOpts demoManifest).map
        (fun bo => bo.tagPrefix) = .ok (some "v") := by
  refine ⟨?_, ?_, rfl⟩ <;>
    simp [resolveBumpOptions, bumpTypeOf, resolveCommitMessage,
      resolveFromTemplate, withTagPrefix, minorOnlyOpts, cfgTagPrefix,
      emptyConfig, jsOrStr, Except.map, ho, hp]

/-- Claim C7 (witness): instantiated at the spec's example values
`override = "release-"`, `persisted = "r"`. -/
theorem tagPrefix_precedence_witness :
    (resolveBumpOptions (cfgTagPrefix "r") (withTagPrefix "release-")
        demoManifest).map (fun bo => bo.tagPrefix) = .ok (some "release-") ∧
    (resolveBumpOptions (cfgTagPrefix "r") minorOnlyOpts demoManifest).map
        (fun bo => bo.tagPrefix) = .ok (some "r") ∧
    (resolveBumpOptions emptyConfig minorOnlyOpts demoManifest).map
        (fun bo => bo.tagPrefix) = .ok (some "v") :=
  tagPrefix_precedence "release-" "r" (by decide) (by decide)

/-- Claim C8: a non-empty `-t` override string resolves to the list
obtained by splitting on commas and trimming each element; the number of
elements is the number of commas plus one (so empty segments are
preserved), every element is trim-stable, splitting is compositional
across a comma, and a trailing comma contributes a final `""` entry. -/
theorem targets_override_split_trim :
    (∀ s : String, s ≠ "" →
      (resolveBumpOptions emptyConfig (withTargets s) demoManifest).map
          (fun bo => bo.branches) =
        .ok (some ⟨some "develop", some (parseTargets s)⟩) ∧
      (parseTargets s).length = countChar ',' s.data + 1 ∧
      (∀ t ∈ parseTargets s, trimWs t.data = t.data)) ∧
    (∀ a b : String,
      parseTargets (a ++ "," ++ b) = parseTargets a ++ parseTargets b) ∧
    (∀ a : String, parseTargets (a ++ ",") = parseTargets a ++ [""]) := by
  have hcomma : (",").data = [','] := rfl
  refine ⟨fun s hs => ⟨?_, ?_, ?_⟩, fun a b => ?_, fun a => ?_⟩
  · simp [resolveBumpOptions, bumpTypeOf, resolveCommitMessage,
      resolveFromTemplate, withTargets, minorOnlyOpts, emptyConfig,
      jsOrStr, Except.map, hs]
  · simp [parseTargets, splitOnChar_length]
  · intro t ht
    simp only [parseTargets, List.mem_map] at ht
    obtain ⟨x, _, rfl⟩ := ht
    show trimWs (String.mk (trimWs x)).data = (String.mk (trimWs x)).data
    exact trimWs_idem x
  · show parseTargets (a ++ "," ++ b) = _
    unfold parseTargets
    rw [String.data_append, String.data_append, hcomma, List.append_assoc,
      List.singleton_append, splitOnChar_append, List.map_append]
  · unfold parseTargets
    rw [String.data_append, hcomma]
    have h1 : a.data ++ [','] = a.data ++ ',' :: ([] : List Char) := rfl
    rw [h1, splitOnChar_append]
    simp [splitOnChar]
    rfl

/-- Claim C8 (witness): the override `"a, b ,"` resolves to
`["a", "b", ""]` — elements trimmed, the empty segment after the trailing
comma preserved as `""`. -/
theorem targets_override_split_trim_witness :
    (resolveBumpOptions emptyConfig (withTargets "a, b ,") demoManifest).map
        (fun bo => bo.branches) =
      .ok (some ⟨some "develop", some ["a", "b", ""]⟩) ∧
    parseTargets "a, b ," = ["a", "b", ""] ∧
    (parseTargets "a, b ,").length = countChar ',' ("a, b ,").data + 1 := by
  have h := targets_override_split_trim.1 "a, b ," (by decide)
  exact ⟨h.1, rfl, h.2.1⟩

/-! ## The workflow: dry runs and fail-fast execution -/

theorem runEffects_append_fail (git : GitOracle) (xs ys : List Effect)
    (A : List String) (u : String) (hok : xs.all (effOk git) = true)
    (hfail : git A = .error u) :
    runEffects git (xs ++ Effect.gitCmd A :: ys) =
      (xs ++ [Effect.gitCmd A],
        some ("Git command failed: git " ++ String.intercalate " " A ++
          "\n" ++ u)) := by
  induction xs with
  | nil =>
    have he : execGit git A =
        .error ("Git command failed: git " ++ String.intercalate " " A ++
          "\n" ++ u) := by
      unfold execGit
      rw [hfail]
    simp [runEffects, he]
  | cons e rest ih =>
    rw [List.all_cons, Bool.and_eq_true] at hok
    cases e with
    | writeManifest c =>
      rw [List.cons_append]
      simp only [runEffects]
      rw [ih hok.2]
      simp
    | gitCmd args =>
      have hargs : (execGit git args).isOk = true := hok.1
      cases hg : execGit git args with
      | error e =>
        rw [hg] at hargs
        simp [Except.isOk, Except.toBool] at hargs
      | ok out =>
        rw [List.cons_append]
        simp only [runEffects]
        rw [hg, ih hok.2]
        simp

/-- Claim C5: with `dryRun` set, `bumpVersion` returns
`{oldVersion, newVersion}` right after computing the new version; the only
effect issued is the read-only repository probe — the manifest is never
written and no repository-mutating subcommand is issued.  Since the run is
a pure function of its inputs and leaves both the manifest and the
repository untouched, repeated dry runs against the same state return the
same plan. -/
theorem dry_run_is_pure (git : GitOracle) (manifest : Json)
    (opts : BumpOptions) (cur nv : String)
    (hprobe : (execGit git ["rev-parse", "--git-dir"]).isOk = true)
    (hver : getCurrentVersionStr manifest = .ok cur)
    (hcalc : calculateNewVersion cur opts.bumpType = .ok nv)
    (hdry : opts.dryRun = some true) :
    bumpVersion git manifest opts =
      ([Effect.gitCmd ["rev-parse", "--git-dir"]], .ok ⟨cur, nv⟩) ∧
    writesOf (bumpVersion git manifest opts).1 = [] ∧
    (∀ e ∈ (bumpVersion git manifest opts).1, isMutatingEffect e = false) := by
  have hbv : bumpVersion git manifest opts =
      ([Effect.gitCmd ["rev-parse", "--git-dir"]], .ok ⟨cur, nv⟩) := by
    unfold bumpVersion
    simp only [hprobe, hver, hcalc, hdry, Option.getD_some]
    rfl
  refine ⟨hbv, ?_, ?_⟩
  · rw [hbv]
    rfl
  · rw [hbv]
    intro e he
    simp only [List.mem_singleton] at he
    subst he
    rfl

/-- Claim C5 (witness): a concrete dry run of a minor bump over
`{"name": "demo", "version": "1.2.3"}` issues only the repository probe
and reports the `1.2.3 → 1.3.0` plan. -/
theorem dry_run_is_pure_witness :
    bumpVersion allOkGit demoManifest dryRunOpts =
      ([Effect.gitCmd ["rev-parse", "--git-dir"]], .ok ⟨"1.2.3", "1.3.0"⟩) ∧
    writesOf (bumpVersion allOkGit demoManifest dryRunOpts).1 = [] ∧
    (∀ e ∈ (bumpVersion allOkGit demoManifest dryRunOpts).1,
      isMutatingEffect e = false) :=
  dry_run_is_pure allOkGit demoManifest dryRunOpts "1.2.3" "1.3.0"
    rfl rfl rfl rfl

/-- A non-dry `bumpVersion` run that passes the probe and version steps
executes exactly its planned effect sequence. -/
theorem bumpVersion_main_path (git : GitOracle) (manifest : Json)
    (opts : BumpOptions) (cur nv : String)
    (hprobe : (execGit git ["rev-parse", "--git-dir"]).isOk = true)
    (hver : getCurrentVersionStr manifest = .ok cur)
    (hcalc : calculateNewVersion cur opts.bumpType = .ok nv)
    (hdry : opts.dryRun.getD false = false) :
    bumpVersion git manifest opts =
      (Effect.gitCmd ["rev-parse", "--git-dir"] ::
        (runEffects git (preOf opts manifest nv ++
          loopPlan (opts.branches.getD defaultBranches).targets
            (opts.skipMerge.getD false) (opts.skipPush.getD false)
            (sourceOf opts))).1,
        match (runEffects git (preOf opts manifest nv ++
          loopPlan (opts.branches.getD defaultBranches).targets
            (opts.skipMerge.getD false) (opts.skipPush.getD false)
            (sourceOf opts))).2 with
        | some m => .error m
        | none => .ok ⟨cur, nv⟩) := by
  unfold bumpVersion
  simp only [hprobe, hver, hcalc, hdry]
  rfl

/-- Claim C9: when a git subcommand inside the per-target merge loop fails
(with `skipMerge` unset and the target list split as `ts₁ ++ t :: ts₂`,
the failing subcommand `A` lying inside target `t`'s command segment), the
run aborts with the repository-command-failed error whose message embeds
the full command line `git <args>`; the trace of issued effects stops at
exactly the failing command, so no command of the remaining targets `ts₂`
and not the final switch back to the source branch is attempted. -/
theorem merge_loop_fails_fast (git : GitOracle) (manifest : Json)
    (opts : BumpOptions) (cur nv u : String) (ts₁ ts₂ : List String)
    (t : String) (seg₁ seg₂ : List Effect) (A : List String)
    (hprobe : (execGit git ["rev-parse", "--git-dir"]).isOk = true)
    (hver : getCurrentVersionStr manifest = .ok cur)
    (hcalc : calculateNewVersion cur opts.bumpType = .ok nv)
    (hdry : opts.dryRun.getD false = false)
    (hmerge : opts.skipMerge.getD false = false)
    (htgt : (opts.branches.getD defaultBranches).targets =
      some (ts₁ ++ t :: ts₂))
    (hseg : targetCmds (opts.skipPush.getD false) (sourceOf opts) t =
      seg₁ ++ Effect.gitCmd A :: seg₂)
    (hok : (preOf opts manifest nv ++ tsegs opts ts₁ ++ seg₁).all
      (effOk git) = true)
    (hfail : git A = .error u) :
    bumpVersion git manifest opts =
      (Effect.gitCmd ["rev-parse", "--git-dir"] ::
        (preOf opts manifest nv ++ tsegs opts ts₁ ++ seg₁ ++
          [Effect.gitCmd A]),
        .error ("Git command failed: git " ++ String.intercalate " " A ++
          "\n" ++ u)) := by
  have hplan : loopPlan (opts.branches.getD defaultBranches).targets
      (opts.skipMerge.getD false) (opts.skipPush.getD false)
      (sourceOf opts) =
      tsegs opts ts₁ ++ (seg₁ ++ Effect.gitCmd A ::
        (seg₂ ++ (tsegs opts ts₂ ++
          [Effect.gitCmd ["switch", sourceOf opts]]))) := by
    rw [htgt, hmerge]
    simp only [loopPlan, Bool.not_false, Bool.true_and]
    have hne : (ts₁ ++ t :: ts₂).isEmpty = false := by
      cases ts₁ <;> rfl
    rw [hne]
    simp only [Bool.not_false, if_pos]
    rw [List.map_append, List.flatten_append, List.map_cons,
      List.flatten_cons, hseg]
    simp [tsegs, List.append_assoc]
  have hassoc : preOf opts manifest nv ++ (tsegs opts ts₁ ++ (seg₁ ++
      Effect.gitCmd A :: (seg₂ ++ (tsegs opts ts₂ ++
        [Effect.gitCmd ["switch", sourceOf opts]])))) =
      (preOf opts manifest nv ++ tsegs opts ts₁ ++ seg₁) ++
        Effect.gitCmd A :: (seg₂ ++ (tsegs opts ts₂ ++
          [Effect.gitCmd ["switch", sourceOf opts]])) := by
    simp [List.append_assoc]
  have hrun := runEffects_append_fail git
    (preOf opts manifest nv ++ tsegs opts ts₁ ++ seg₁)
    (seg₂ ++ (tsegs opts ts₂ ++ [Effect.gitCmd ["switch", sourceOf opts]]))
    A u hok hfail
  rw [bumpVersion_main_path git manifest opts cur nv hprobe hver hcalc hdry,
    hplan, hassoc, hrun]

/-- Claim C9 (witness): with targets `["A", "B"]` and an oracle failing
exactly on `push origin A`, the run stops right after that push — `B` is
never visited and the switch back to `develop` never issued — and the
error message carries the full command line `git push origin A`. -/
theorem merge_loop_fails_fast_witness :
    bumpVersion failPushAGit demoManifest optsAB =
      (Effect.gitCmd ["rev-parse", "--git-dir"] ::
        (preOf optsAB demoManifest "1.3.0" ++ tsegs optsAB [] ++
          [Effect.gitCmd ["switch", "A"], Effect.gitCmd ["pull"],
            Effect.gitCmd ["pull", "origin", "develop"]] ++
          [Effect.gitCmd ["push", "origin", "A"]]),
        .error "Git command failed: git push origin A\nboom") :=
  merge_loop_fails_fast failPushAGit demoManifest optsAB "1.2.3" "1.3.0"
    "boom" [] ["B"] "A"
    [Effect.gitCmd ["switch", "A"], Effect.gitCmd ["pull"],
      Effect.gitCmd ["pull", "origin", "develop"]]
    [] ["push", "origin", "A"] rfl rfl rfl rfl rfl rfl rfl rfl rfl

/-! ## The CLI defaults and the commit-message template -/

/-- Claim C1 (code bug): with no configuration file and no overrides, the
CLI resolves the source branch to the hard-coded `"develop"` and the
target list to `["UAT"]` — not to the checked-out branch and the empty
list that the repository's README and the `init` prompts document — and
the ensuing run does attempt a target-branch merge (it switches to
`UAT`). -/
theorem default_resolution_targets_UAT :
    resolveBumpOptions emptyConfig minorOnlyOpts demoManifest =
      .ok defaultResolved ∧
    defaultResolved.branches = some ⟨some "develop", some ["UAT"]⟩ ∧
    Effect.gitCmd ["switch", "UAT"] ∈
      (bumpVersion allOkGit demoManifest defaultResolved).1 := by
  refine ⟨rfl, rfl, ?_⟩
  show Effect.gitCmd ["switch", "UAT"] ∈
    (bumpVersion allOkGit demoManifest defaultResolved).1
  have hbv : (bumpVersion allOkGit demoManifest defaultResolved).1 =
      Effect.gitCmd ["rev-parse", "--git-dir"] ::
        (preOf defaultResolved demoManifest "1.3.0" ++
          loopPlan (some ["UAT"]) false false "develop") := by rfl
  rw [hbv]
  decide

/-- Claim C2 (code bug): with the template `"build: {version}"` configured
and no explicit message, the CLI substitutes the *current* (pre-bump)
version into the placeholder: bumping `1.2.3` by minor yields the new
version `1.3.0`, yet the resolved commit message is `"build: 1.2.3"` and
that is what the `git commit -m` step receives — not the
`"build: 1.3.0"` the template semantics call for. -/
theorem template_substitutes_old_version :
    calculateNewVersion "1.2.3" .minor = .ok "1.3.0" ∧
    resolveBumpOptions tmplConfig minorOnlyOpts demoManifest =
      .ok tmplResolved ∧
    tmplResolved.commitMessage = some "build: 1.2.3" ∧
    Effect.gitCmd ["commit", "-m", "build: 1.2.3"] ∈
      (bumpVersion allOkGit demoManifest tmplResolved).1 ∧
    ("build: 1.2.3" ≠ "build: 1.3.0") := by
  refine ⟨rfl, rfl, rfl, ?_, by decide⟩
  have hbv : (bumpVersion allOkGit demoManifest tmplResolved).1 =
      Effect.gitCmd ["rev-parse", "--git-dir"] ::
        (preOf tmplResolved demoManifest "1.3.0" ++
          loopPlan (some ["UAT"]) false false "develop") := by rfl
  rw [hbv]
  decide

end VBump
